import Mathlib

/-!
Verification development for the AIP Polska scraper (`main.js`).

The core of the repository is the recursive tree-mirror walker
(`processMenuItems`), the download engine (`downloadFile`) and the
filename sanitizer (`sanitizeFilename`).  This file gives a shallow
embedding of those functions and proves the specified properties.

Modelling notes:
* Filesystem and network effects are made explicit: a state `St` records
  created directories, written files, issued network fetches and download
  engine invocations; an environment `Env` is an oracle for network
  responses and for `mkdir` failures (indexed by the number of prior
  `mkdir` attempts, so that transient per-call failures are expressible).
* `path.join(a, b)` is modelled as `a ++ "/" ++ b`; the walker only ever
  joins a non-empty current path with a sanitized (hence `/`-free) label,
  where node's `join` performs no further normalization beyond inserting
  the separator (titles `"."`/`".."` aside, which no claim concerns).
* `new URL(rel, base).href` is modelled as `base ++ rel`: the walker
  resolves a percent-encoded single path segment against a base URL that
  ends in `/` (`.../documents/PDF/`), where RFC 3986 resolution is plain
  concatenation.
* JavaScript exceptions escaping `processMenuItems` (the unhandled
  `TypeError` from iterating an absent `children` field) are modelled by
  the `Except` error case; `downloadFile`'s internal `try/catch` makes it
  a total function returning `Bool`, as in the source.
-/

/-- Result of the network oracle for one URL: a successful response with a
body, a non-success HTTP status (`response.ok` false), or a
transport-level fault (the `fetch` call itself throwing). -/
inductive NetResult : Type where
  | ok (body : String) : NetResult
  | httpError : NetResult
  | fault : NetResult
deriving DecidableEq, Repr

/-- The one unhandled fault of the walker: iterating `item.children`
when the field is absent (a `TypeError` in JavaScript). -/
inductive Fault : Type where
  | childrenUndefined : Fault
deriving DecidableEq, Repr

/-- External environment: the network oracle and the `mkdir` failure
oracle, the latter indexed by how many `mkdir` attempts happened before
(so a failure can be transient rather than a property of the path). -/
structure Env : Type where
  net : String → NetResult
  mkdirFails : Nat → Bool

/-- Observable state threaded through the walk: `tick` counts `mkdir`
attempts, `dirs` the successfully created directory paths (in creation
order), `files` the written files (path, body), `fetches` the URLs for
which a network request was actually issued, and `calls` the invocations
of the download engine as (url, targetPath) pairs. -/
structure St : Type where
  tick : Nat
  dirs : List String
  files : List (String × String)
  fetches : List String
  calls : List (String × String)
deriving DecidableEq, Repr

/-- The empty initial state. -/
def St.empty : St := ⟨0, [], [], [], []⟩

mutual
/-- A menu node as consumed by `processMenuItems`: a possibly absent
`title`, a possibly absent `href` (the `documentRef`), and a possibly
absent `children` array. -/
inductive MenuNode : Type where
  | mk (title : Option String) (href : Option String)
      (children : Option Forest) : MenuNode

/-- A sequence of menu nodes (`item.children` / the `items` argument). -/
inductive Forest : Type where
  | nil : Forest
  | cons (head : MenuNode) (tail : Forest) : Forest
end

/-- The `title` field of a node. -/
def MenuNode.title : MenuNode → Option String
  | .mk t _ _ => t

/-- The `href` field of a node. -/
def MenuNode.href : MenuNode → Option String
  | .mk _ h _ => h

/-- The `children` field of a node. -/
def MenuNode.children : MenuNode → Option Forest
  | .mk _ _ c => c

/-- Length of a forest (`items.length`). -/
def Forest.length : Forest → Nat
  | .nil => 0
  | .cons _ t => t.length + 1

/-- `item.title || "Untitled_Folder"`: JavaScript truthiness, so both an
absent title and the empty string fall back to the placeholder. -/
def jsTitle : Option String → String
  | none => "Untitled_Folder"
  | some s => if s = "" then "Untitled_Folder" else s

/-- The characters replaced by `_` in `sanitizeFilename`
(regex character class in `name.replace`). -/
def badChar (c : Char) : Bool :=
  c == '<' || c == '>' || c == ':' || c == '"' || c == '/' ||
  c == '\\' || c == '|' || c == '?' || c == '*'

/-- Pointwise replacement of forbidden characters by `_`
(`name.replace` with a global regex: every occurrence, independently). -/
def replaceBad (l : List Char) : List Char :=
  l.map (fun c => if badChar c then '_' else c)

/-- JavaScript `String.prototype.trim` whitespace (the characters that
actually occur in this domain; NBSP and the exotic Unicode spaces are
trimmed identically and are omitted from the model). -/
def jsWhitespace (c : Char) : Bool :=
  c == ' ' || c == '\t' || c == '\n' || c == '\r' || c == '\x0b' || c == '\x0c'

/-- `s.trim()`: drop whitespace from both ends. -/
def trimChars (l : List Char) : List Char :=
  ((l.dropWhile jsWhitespace).reverse.dropWhile jsWhitespace).reverse

/-- `s.replaceAll("  ", " ")`: one left-to-right pass over the string,
replacing each non-overlapping occurrence of two spaces by one; the
replacement is not rescanned, so runs of four spaces leave two. -/
def collapseDouble : List Char → List Char
  | [] => []
  | [c] => [c]
  | c₁ :: c₂ :: rest =>
    if c₁ = ' ' ∧ c₂ = ' ' then ' ' :: collapseDouble rest
    else c₁ :: collapseDouble (c₂ :: rest)

/-- `sanitizeFilename(name)` from `main.js`.  `none` models a non-string
(or absent) argument; the guard `!name` also sends the empty string to
`"untitled"`, and so does the final `saneName || "untitled"`. -/
def sanitizeFilename : Option String → String
  | none => "untitled"
  | some s =>
    if s = "" then "untitled"
    else
      let r := String.mk (collapseDouble (trimChars (replaceBad s.data)))
      if r = "" then "untitled" else r

/-- ASCII lower-case letter, for the `[a-z]` atoms of the href regex. -/
def isLowerAZ (c : Char) : Bool := 'a' ≤ c && c ≤ 'z'

/-- ASCII upper-case letter, for the `[A-Z]` atoms of the href regex. -/
def isUpperAZ (c : Char) : Bool := 'A' ≤ c && c ≤ 'Z'

/-- Does the list start with a locale suffix `-xx-XX`? -/
def localeSuffixAt : List Char → Bool
  | '-' :: a :: b :: '-' :: c :: d :: _ =>
    isLowerAZ a && isLowerAZ b && isUpperAZ c && isUpperAZ d
  | _ => false

/-- Does the list start with the literal `.html`? -/
def htmlAt : List Char → Bool
  | '.' :: 'h' :: 't' :: 'm' :: 'l' :: _ => true
  | _ => false

/-- Characters the regex atom `.` does not match in JavaScript. -/
def jsDotExcluded (c : Char) : Bool :=
  c == '\n' || c == '\r' || c == '\u2028' || c == '\u2029'

/-- Backtracking engine for `/^(.*?)(?:-[a-z]{2}-[A-Z]{2})?\.html/`:
the lazy `(.*?)` grows one character at a time; at each split point the
optional (greedy) locale suffix is tried first, then the bare `.html`.
Returns the text captured by group 1 at the first successful split. -/
def pdfMatchAux : List Char → List Char → Option (List Char)
  | pre, rest =>
    if (localeSuffixAt rest && htmlAt (rest.drop 6)) || htmlAt rest then
      some pre.reverse
    else
      match rest with
      | [] => none
      | c :: cs =>
        if jsDotExcluded c then none else pdfMatchAux (c :: pre) cs

/-- `href.match(/^(.*?)(?:-[a-z]{2}-[A-Z]{2})?\.html/)` restricted to its
group 1: `none` when the regex does not match at all. -/
def pdfNameMatch (s : String) : Option String :=
  (pdfMatchAux [] s.data).map String.mk

/-- Is a character left unescaped by `encodeURIComponent`? -/
def isUnescaped (c : Char) : Bool :=
  c.isAlpha || c.isDigit || c == '-' || c == '_' || c == '.' ||
  c == '!' || c == '~' || c == '*' || c == '\'' || c == '(' || c == ')'

/-- Upper-case hexadecimal digit of a value below 16. -/
def hexDigit (n : Nat) : Char :=
  if n < 10 then Char.ofNat (48 + n) else Char.ofNat (55 + n)

/-- UTF-8 bytes of a code point. -/
def utf8BytesOf (n : Nat) : List Nat :=
  if n < 128 then [n]
  else if n < 2048 then [192 + n / 64, 128 + n % 64]
  else if n < 65536 then
    [224 + n / 4096, 128 + (n / 64) % 64, 128 + n % 64]
  else
    [240 + n / 262144, 128 + (n / 4096) % 64, 128 + (n / 64) % 64,
     128 + n % 64]

/-- Percent-escape one character as `%XX` per UTF-8 byte. -/
def pctEncodeChar (c : Char) : List Char :=
  (utf8BytesOf c.toNat).foldr
    (fun b acc => '%' :: hexDigit (b / 16) :: hexDigit (b % 16) :: acc) []

/-- `encodeURIComponent(s)`. -/
def encodeURIComponent (s : String) : String :=
  String.mk (s.data.foldr
    (fun c acc => if isUnescaped c then c :: acc else pctEncodeChar c ++ acc)
    [])

/-- `new URL(rel, base).href` for the walker's use case: `base` is an
absolute URL ending in `/` and `rel` a percent-encoded path segment plus
extension, so resolution is concatenation. -/
def urlResolve (base rel : String) : String := base ++ rel

/-- `path.join(a, b)` for the walker's use case (see module notes). -/
def pathJoin (a b : String) : String := a ++ "/" ++ b

/-- The sanitized title of a node (`sanitizedItemTitle` in the source). -/
def sanTitleOf (n : MenuNode) : String :=
  sanitizeFilename (some (jsTitle n.title))

/-- The `itemPath` the walker computes for a node processed at `cur`. -/
def itemPathOf (cur : String) (n : MenuNode) : String :=
  pathJoin cur (sanTitleOf n)

/-- `downloadFile(url, targetPath)` from `main.js`: record the engine
invocation; if the file already exists return `true` untouched;
otherwise issue the single fetch and either persist the body (`true`)
or, on a non-success status or transport fault, change nothing and
return `false`.  The `try/catch` of the source makes this total. -/
def downloadFile (env : Env) (st : St) (url targetPath : String) :
    Bool × St :=
  let st₀ := { st with calls := st.calls ++ [(url, targetPath)] }
  if (List.lookup targetPath st₀.files).isSome then
    (true, st₀)
  else
    let st₁ := { st₀ with fetches := st₀.fetches ++ [url] }
    match env.net url with
    | .ok body => (true, { st₁ with files := st₁.files ++ [(targetPath, body)] })
    | .httpError => (false, st₁)
    | .fault => (false, st₁)

/-- The one-level dedup scan of `processMenuItems` (lines 78–84):
`child.href && child.href == href` over the direct children. -/
def hrefDupScan : Forest → String → Bool
  | .nil, _ => false
  | .cons c rest, h =>
    (match c.href with
     | some ch => ch != "" && ch == h
     | none => false) || hrefDupScan rest h

mutual
/-- One iteration of the `for (const item of items)` loop of
`processMenuItems`: `mkdir(currentFsPath)` (skip the node on failure),
then the href block (parse, build URL, dedup scan, download), then the
guarded recursion into `item.children`.  The unguarded accesses to
`item.children` in the dedup scan and the target-path computation are
the `Fault` case. -/
def processMenuItem (env : Env) (item : MenuNode) (cur base : String)
    (st : St) : Except Fault St :=
  match item with
  | .mk title href children =>
    let sanT := sanitizeFilename (some (jsTitle title))
    let itemPath := pathJoin cur sanT
    if env.mkdirFails st.tick then
      .ok { st with tick := st.tick + 1 }
    else
      let st₁ := { st with tick := st.tick + 1, dirs := st.dirs ++ [cur] }
      let afterHref : Except Fault St :=
        match href with
        | none => .ok st₁
        | some h =>
          if h = "" then .ok st₁
          else
            match pdfNameMatch h with
            | none => .ok st₁
            | some bn =>
              if bn = "" then .ok st₁
              else
                match children with
                | none => .error .childrenUndefined
                | some cf =>
                  let url := urlResolve base (encodeURIComponent bn ++ ".pdf")
                  let target :=
                    if cf.length > 0 then itemPath ++ "/" ++ sanT ++ ".pdf"
                    else itemPath ++ ".pdf"
                  if hrefDupScan cf h then .ok st₁
                  else .ok (downloadFile env st₁ url target).2
      match afterHref with
      | .error e => .error e
      | .ok st₂ =>
        match children with
        | none => .ok st₂
        | some cf =>
          if cf.length > 0 then processMenuItems env cf itemPath base st₂
          else .ok st₂

/-- `processMenuItems(items, currentFsPath, pdfDocBaseUrl)` from
`main.js`, processing the nodes in order and propagating the unhandled
fault. -/
def processMenuItems (env : Env) (f : Forest) (cur base : String)
    (st : St) : Except Fault St :=
  match f with
  | .nil => .ok st
  | .cons item rest =>
    match processMenuItem env item cur base st with
    | .error e => .error e
    | .ok st₁ => processMenuItems env rest cur base st₁
end

instance : DecidableEq (Except Fault St) := fun a b =>
  match a, b with
  | .ok x, .ok y =>
    if h : x = y then .isTrue (by rw [h])
    else .isFalse (fun hh => h (by injection hh))
  | .error x, .error y =>
    if h : x = y then .isTrue (by rw [h])
    else .isFalse (fun hh => h (by injection hh))
  | .ok _, .error _ => .isFalse (fun hh => by injection hh)
  | .error _, .ok _ => .isFalse (fun hh => by injection hh)

/-- A benign concrete environment: every fetch succeeds with body
`"pdfbody"` and `mkdir` never fails. -/
def envOk : Env := ⟨fun _ => .ok "pdfbody", fun _ => false⟩

/-- Directories created by a finished run (`[]` when the run faulted). -/
def dirsOf : Except Fault St → List String
  | .ok st => st.dirs
  | .error _ => []

/-- Download-engine invocations of a finished run. -/
def callsOf : Except Fault St → List (String × String)
  | .ok st => st.calls
  | .error _ => []

/-- Did the run finish without an unhandled fault? -/
def runOk : Except Fault St → Bool
  | .ok _ => true
  | .error _ => false

/-- State update of a successful `mkdir(currentFsPath)`. -/
def stAfterMkdir (st : St) (cur : String) : St :=
  { st with tick := st.tick + 1, dirs := st.dirs ++ [cur] }

/-- The tail of one loop iteration: the guarded recursion into
`item.children` (line 94 of `main.js`). -/
def childrenStep (env : Env) (ch : Option Forest) (path base : String)
    (st : St) : Except Fault St :=
  match ch with
  | none => .ok st
  | some cf =>
    if cf.length > 0 then processMenuItems env cf path base st else .ok st

/-- A failing `mkdir` skips the whole loop body for this item: no
directory, no href handling, no recursion; only the attempt is counted. -/
theorem processMenuItem_mkdirFail (env : Env) (t h : Option String)
    (ch : Option Forest) (cur base : String) (st : St)
    (hm : env.mkdirFails st.tick = true) :
    processMenuItem env (.mk t h ch) cur base st =
      .ok { st with tick := st.tick + 1 } := by
  rw [processMenuItem]
  rw [if_pos hm]

/-- With `mkdir` succeeding and no `href`, the iteration is the
directory creation followed by the children step. -/
theorem processMenuItem_noHref (env : Env) (t : Option String)
    (ch : Option Forest) (cur base : String) (st : St)
    (hm : env.mkdirFails st.tick = false) :
    processMenuItem env (.mk t none ch) cur base st =
      childrenStep env ch (itemPathOf cur (.mk t none ch)) base
        (stAfterMkdir st cur) := by
  rw [processMenuItem]
  simp [hm, childrenStep, stAfterMkdir, itemPathOf, sanTitleOf,
    MenuNode.title]

/-- A present but falsy (empty) `href` behaves like an absent one. -/
theorem processMenuItem_emptyHref (env : Env) (t : Option String)
    (ch : Option Forest) (cur base : String) (st : St)
    (hm : env.mkdirFails st.tick = false) :
    processMenuItem env (.mk t (some "") ch) cur base st =
      childrenStep env ch (itemPathOf cur (.mk t (some "") ch)) base
        (stAfterMkdir st cur) := by
  rw [processMenuItem]
  simp [hm, childrenStep, stAfterMkdir, itemPathOf, sanTitleOf,
    MenuNode.title]

/-- Parse failure of a truthy href: the iteration is the directory
creation followed by the children step, with no download attempted. -/
theorem processMenuItem_parseFailStep (env : Env) (t : Option String)
    (hs : String) (ch : Option Forest) (cur base : String) (st : St)
    (hm : env.mkdirFails st.tick = false)
    (hp : pdfNameMatch hs = none ∨ pdfNameMatch hs = some "") :
    processMenuItem env (.mk t (some hs) ch) cur base st =
      childrenStep env ch (itemPathOf cur (.mk t (some hs) ch)) base
        (stAfterMkdir st cur) := by
  rw [processMenuItem]
  by_cases he : hs = ""
  · subst he
    simp [hm, childrenStep, stAfterMkdir, itemPathOf, sanTitleOf,
      MenuNode.title]
  · rcases hp with hp | hp <;>
      simp [hm, he, hp, childrenStep, stAfterMkdir, itemPathOf, sanTitleOf,
        MenuNode.title]

/-- When the href parses to a non-empty base name but the node has no
`children` field, the dedup scan's unguarded iteration over
`item.children` raises the unhandled fault. -/
theorem processMenuItem_childrenFault (env : Env) (t : Option String)
    (hs bn : String) (cur base : String) (st : St)
    (hm : env.mkdirFails st.tick = false)
    (hne : hs ≠ "") (hp : pdfNameMatch hs = some bn) (hbn : bn ≠ "") :
    processMenuItem env (.mk t (some hs) none) cur base st =
      .error .childrenUndefined := by
  rw [processMenuItem]
  simp [hm, hne, hp, hbn]

/-- **Dedup**: href parses, and some direct child carries the same
(truthy) href — the download engine is not invoked for this node and the
iteration proceeds straight to the children step. -/
theorem processMenuItem_dupSkip (env : Env) (t : Option String)
    (hs bn : String) (cf : Forest) (cur base : String) (st : St)
    (hm : env.mkdirFails st.tick = false)
    (hne : hs ≠ "") (hp : pdfNameMatch hs = some bn) (hbn : bn ≠ "")
    (hdup : hrefDupScan cf hs = true) :
    processMenuItem env (.mk t (some hs) (some cf)) cur base st =
      childrenStep env (some cf) (itemPathOf cur (.mk t (some hs) (some cf)))
        base (stAfterMkdir st cur) := by
  rw [processMenuItem]
  simp [hm, hne, hp, hbn, hdup, childrenStep, stAfterMkdir, itemPathOf,
    sanTitleOf, MenuNode.title]

/-- No matching direct child: the download engine is invoked with the
derived URL and the branch/leaf-dependent target path, then the children
step runs on the engine's post-state. -/
theorem processMenuItem_download (env : Env) (t : Option String)
    (hs bn : String) (cf : Forest) (cur base : String) (st : St)
    (hm : env.mkdirFails st.tick = false)
    (hne : hs ≠ "") (hp : pdfNameMatch hs = some bn) (hbn : bn ≠ "")
    (hdup : hrefDupScan cf hs = false) :
    processMenuItem env (.mk t (some hs) (some cf)) cur base st =
      childrenStep env (some cf)
        (itemPathOf cur (.mk t (some hs) (some cf))) base
        (downloadFile env (stAfterMkdir st cur)
          (urlResolve base (encodeURIComponent bn ++ ".pdf"))
          (if cf.length > 0 then
            itemPathOf cur (.mk t (some hs) (some cf)) ++ "/" ++
              sanTitleOf (.mk t (some hs) (some cf)) ++ ".pdf"
           else itemPathOf cur (.mk t (some hs) (some cf)) ++ ".pdf")).2 := by
  rw [processMenuItem]
  simp [hm, hne, hp, hbn, hdup, childrenStep, stAfterMkdir, itemPathOf,
    sanTitleOf, MenuNode.title]

/-- The walk over an empty sequence does nothing. -/
theorem processMenuItems_nil (env : Env) (cur base : String) (st : St) :
    processMenuItems env .nil cur base st = .ok st := by
  rw [processMenuItems]

/-- The walk processes the head item and, unless it faulted, continues
with the tail from the head's post-state. -/
theorem processMenuItems_cons (env : Env) (item : MenuNode) (rest : Forest)
    (cur base : String) (st : St) :
    processMenuItems env (.cons item rest) cur base st =
      match processMenuItem env item cur base st with
      | .error e => .error e
      | .ok st₁ => processMenuItems env rest cur base st₁ := by
  rw [processMenuItems]

/-- **Skip-existing**: a pre-existing file at the target (any contents,
including a zero-byte file) short-circuits the engine to success with no
network request and no change to the stored files. -/
theorem downloadFile_exists (env : Env) (st : St) (u p : String)
    (hf : (List.lookup p st.files).isSome) :
    downloadFile env st u p =
      (true, { st with calls := st.calls ++ [(u, p)] }) := by
  simp [downloadFile, hf]

/-- A failed fetch (non-success status or transport fault) returns
`false`, records the attempt, and writes no file. -/
theorem downloadFile_fail (env : Env) (st : St) (u p : String)
    (hf : List.lookup p st.files = none)
    (hn : env.net u = .httpError ∨ env.net u = .fault) :
    downloadFile env st u p =
      (false, { st with calls := st.calls ++ [(u, p)],
                        fetches := st.fetches ++ [u] }) := by
  rcases hn with hn | hn <;> simp [downloadFile, hf, hn]

/-- A successful fetch persists the body at the target and returns
`true`. -/
theorem downloadFile_fetch (env : Env) (st : St) (u p b : String)
    (hf : List.lookup p st.files = none)
    (hn : env.net u = .ok b) :
    downloadFile env st u p =
      (true, { st with calls := st.calls ++ [(u, p)],
                       fetches := st.fetches ++ [u],
                       files := st.files ++ [(p, b)] }) := by
  simp [downloadFile, hf, hn]

/-- The engine never touches `tick` or `dirs`, and can only append to
`calls`, `fetches` and `files`. -/
theorem downloadFile_frame (env : Env) (st : St) (u p : String) :
    ((downloadFile env st u p).2.tick = st.tick ∧
     (downloadFile env st u p).2.dirs = st.dirs) ∧
    (downloadFile env st u p).2.calls = st.calls ++ [(u, p)] := by
  unfold downloadFile
  by_cases hf : (List.lookup p st.files).isSome
  · simp [hf]
  · cases hn : env.net u <;> simp [hf, hn]

mutual
/-- The directory paths `mkdir` receives during a fault-free,
failure-free walk of a forest at `cur`, in creation order. -/
def dirsForest : Forest → String → List String
  | .nil, _ => []
  | .cons n rest, cur => dirsItem n cur ++ dirsForest rest cur

/-- The directory paths contributed by one item processed at `cur`:
`mkdir(cur)` itself, then the recursion into non-empty children. -/
def dirsItem : MenuNode → String → List String
  | .mk t _ ch, cur =>
    cur ::
      (match ch with
       | some cf =>
         if cf.length > 0 then
           dirsForest cf (pathJoin cur (sanitizeFilename (some (jsTitle t))))
         else []
       | none => [])
end

/-- Node `m` is reached by the walk of forest `f` at path `cur`, with `c`
the `currentFsPath` in force when `m` is processed (so `m`'s own
`itemPath` is `itemPathOf c m`). -/
inductive Visits : Forest → String → MenuNode → String → Prop where
  | head (n : MenuNode) (rest : Forest) (cur : String) :
      Visits (.cons n rest) cur n cur
  | tail {rest : Forest} {cur : String} {m : MenuNode} {c : String}
      (n : MenuNode) : Visits rest cur m c → Visits (.cons n rest) cur m c
  | child {n : MenuNode} {cf : Forest} {cur : String} {m : MenuNode}
      {c : String} (rest : Forest) : n.children = some cf →
      Visits cf (itemPathOf cur n) m c → Visits (.cons n rest) cur m c

/-- Nothing is visited in an empty forest. -/
theorem Visits.ne_nil {f : Forest} {cur : String} {m : MenuNode}
    {c : String} (h : Visits f cur m c) : f ≠ .nil := by
  cases h <;> intro hh <;> exact Forest.noConfusion hh

/-- A nonempty forest has positive length. -/
theorem Forest.length_pos_of_ne_nil {f : Forest} (h : f ≠ .nil) :
    f.length > 0 := by
  cases f
  · exact absurd rfl h
  · simp [Forest.length]

/-- The `currentFsPath` of every visited node is among the directories a
fault-free walk creates. -/
theorem Visits.mem_dirsForest {f : Forest} {cur : String} {m : MenuNode}
    {c : String} (h : Visits f cur m c) : c ∈ dirsForest f cur := by
  induction h with
  | head n rest cur =>
    rw [dirsForest]
    refine List.mem_append_left _ ?_
    cases n with
    | mk t hr ch =>
      cases ch
      · rw [dirsItem]
        exact List.mem_cons_self _ _
      · rw [dirsItem]
        exact List.mem_cons_self _ _
  | tail n _ ih =>
    rw [dirsForest]
    exact List.mem_append_right _ ih
  | child rest hch hv ih =>
    rename_i n cf cur m c
    cases n with
    | mk t hr ch =>
      have hcf : ch = some cf := by
        simpa [MenuNode.children] using hch
      subst hcf
      rw [dirsForest]
      refine List.mem_append_left _ ?_
      rw [dirsItem]
      refine List.mem_cons_of_mem _ ?_
      rw [if_pos (Forest.length_pos_of_ne_nil hv.ne_nil)]
      simpa [itemPathOf, sanTitleOf, MenuNode.title] using ih

mutual
/-- With `mkdir` never failing, a fault-free walk appends exactly the
`dirsForest` paths to the created-directory log. -/
theorem processMenuItems_dirs (env : Env) (f : Forest) (cur base : String)
    (st st' : St) (hmk : ∀ k, env.mkdirFails k = false)
    (h : processMenuItems env f cur base st = .ok st') :
    st'.dirs = st.dirs ++ dirsForest f cur := by
  cases f with
  | nil =>
    rw [processMenuItems_nil] at h
    cases h
    rw [dirsForest]
    simp
  | cons item rest =>
    rw [processMenuItems_cons] at h
    rcases hh : processMenuItem env item cur base st with e | st₁ <;>
      rw [hh] at h
    · cases h
    · have h₁ := processMenuItem_dirs env item cur base st st₁ hmk hh
      have h₂ := processMenuItems_dirs env rest cur base st₁ st' hmk h
      rw [h₂, h₁, dirsForest]
      simp

/-- With `mkdir` never failing, one fault-free loop iteration appends
exactly the `dirsItem` paths to the created-directory log. -/
theorem processMenuItem_dirs (env : Env) (n : MenuNode) (cur base : String)
    (st st' : St) (hmk : ∀ k, env.mkdirFails k = false)
    (h : processMenuItem env n cur base st = .ok st') :
    st'.dirs = st.dirs ++ dirsItem n cur := by
  cases n with
  | mk t hr ch =>
    have hstep : ∀ st₂ : St, st₂.dirs = (stAfterMkdir st cur).dirs →
        childrenStep env ch (itemPathOf cur (.mk t hr ch)) base st₂ = .ok st' →
        st'.dirs = st.dirs ++ dirsItem (.mk t hr ch) cur := by
      intro st₂ hd hcs
      cases ch with
      | none =>
        rw [childrenStep] at hcs
        cases hcs
        rw [dirsItem, hd]
        simp [stAfterMkdir]
      | some cf =>
        rw [childrenStep] at hcs
        by_cases hl : cf.length > 0
        · rw [if_pos hl] at hcs
          have := processMenuItems_dirs env cf
            (itemPathOf cur (.mk t hr (some cf))) base st₂ st' hmk hcs
          rw [this, hd, dirsItem, if_pos hl]
          simp [stAfterMkdir, itemPathOf, sanTitleOf, MenuNode.title]
        · rw [if_neg hl] at hcs
          cases hcs
          rw [hd, dirsItem, if_neg hl]
          simp [stAfterMkdir]
    cases hr with
    | none =>
      rw [processMenuItem_noHref env t ch cur base st (hmk st.tick)] at h
      exact hstep _ rfl h
    | some hs =>
      by_cases he : hs = ""
      · subst he
        rw [processMenuItem_emptyHref env t ch cur base st (hmk st.tick)] at h
        exact hstep _ rfl h
      · rcases hp : pdfNameMatch hs with _ | bn
        · rw [processMenuItem_parseFailStep env t hs ch cur base st
            (hmk st.tick) (Or.inl hp)] at h
          exact hstep _ rfl h
        · by_cases hbn : bn = ""
          · subst hbn
            rw [processMenuItem_parseFailStep env t hs ch cur base st
              (hmk st.tick) (Or.inr hp)] at h
            exact hstep _ rfl h
          · cases ch with
            | none =>
              rw [processMenuItem_childrenFault env t hs bn cur base st
                (hmk st.tick) he hp hbn] at h
              cases h
            | some cf =>
              rcases hdup : hrefDupScan cf hs with _ | _
              · rw [processMenuItem_download env t hs bn cf cur base st
                  (hmk st.tick) he hp hbn hdup] at h
                exact hstep _ ((downloadFile_frame env
                  (stAfterMkdir st cur) _ _).1.2) h
              · rw [processMenuItem_dupSkip env t hs bn cf cur base st
                  (hmk st.tick) he hp hbn hdup] at h
                exact hstep _ rfl h
end

/-- Permutation of sibling order, at any depth of the tree: reorder the
nodes of a sequence and/or recursively reorder the children of a node,
leaving every node's own fields otherwise unchanged. -/
inductive FPerm : Forest → Forest → Prop where
  | nil : FPerm .nil .nil
  | consN {l l' : Forest} (t h : Option String) :
      FPerm l l' → FPerm (.cons (.mk t h none) l) (.cons (.mk t h none) l')
  | consS {cs cs' l l' : Forest} (t h : Option String) :
      FPerm cs cs' → FPerm l l' →
      FPerm (.cons (.mk t h (some cs)) l) (.cons (.mk t h (some cs')) l')
  | swap (a b : MenuNode) (l : Forest) :
      FPerm (.cons a (.cons b l)) (.cons b (.cons a l))
  | trans {l₁ l₂ l₃ : Forest} :
      FPerm l₁ l₂ → FPerm l₂ l₃ → FPerm l₁ l₃

/-- Permuting sibling order preserves the number of siblings. -/
theorem FPerm.length_eq {f f' : Forest} (h : FPerm f f') :
    f.length = f'.length := by
  induction h with
  | nil => rfl
  | consN t hh _ ih => simp [Forest.length, ih]
  | consS t hh _ _ _ ih => simp [Forest.length, ih]
  | swap a b l => simp [Forest.length]
  | trans _ _ ih₁ ih₂ => exact ih₁.trans ih₂

/-- Permuting sibling order (at any depth) does not change the set of
directory paths a fault-free walk would create. -/
theorem FPerm.mem_dirsForest_iff {f f' : Forest} (h : FPerm f f') :
    ∀ (cur x : String), (x ∈ dirsForest f cur ↔ x ∈ dirsForest f' cur) := by
  induction h with
  | nil => intro cur x; exact Iff.rfl
  | consN t hh _ ih =>
    intro cur x
    rw [dirsForest, dirsForest]
    simp only [List.mem_append]
    exact or_congr Iff.rfl (ih cur x)
  | consS t hh hcs _ ihcs ihl =>
    intro cur x
    rw [dirsForest, dirsForest, dirsItem, dirsItem]
    simp only [List.mem_append, List.mem_cons]
    refine or_congr (or_congr Iff.rfl ?_) (ihl cur x)
    rw [hcs.length_eq]
    split
    · exact ihcs _ x
    · exact Iff.rfl
  | swap a b l =>
    intro cur x
    rw [dirsForest, dirsForest, dirsForest, dirsForest]
    simp only [List.mem_append]
    tauto
  | trans _ _ ih₁ ih₂ =>
    intro cur x
    exact (ih₁ cur x).trans (ih₂ cur x)

/-- A one-node tree whose only node is a leaf (no `documentRef`, no
children): the walk only creates the parent directory `"r"`. -/
def leafOnlyForest : Forest := .cons (.mk (some "a") none none) .nil

/-- C1 counterexample: the claim says the walk creates a directory at
`itemPath` for **every** node, *including leaf nodes*.  The code calls
`mkdir(currentFsPath)` — the parent — and only reaches `itemPath` as a
`currentFsPath` when recursing into non-empty children, so for the
single leaf node `"a"` the walk terminates cleanly having created only
`"r"`, never `"r/a" = itemPath`. -/
theorem C1_counterexample :
    runOk (processMenuItems envOk leafOnlyForest "r" "B/" St.empty) = true ∧
    itemPathOf "r" (.mk (some "a") none none) = "r/a" ∧
    dirsOf (processMenuItems envOk leafOnlyForest "r" "B/" St.empty) = ["r"] ∧
    ("r/a" ∈ dirsOf (processMenuItems envOk leafOnlyForest "r" "B/" St.empty)
      → False) := by
  decide

/-- C1 (amended): with `mkdir` never failing, after a fault-free walk a
directory exists at the `currentFsPath` of every reachable node — the
walk root for top-level nodes, and `itemPath` of the parent for deeper
nodes — equivalently at `itemPath` for every node with at least one
child; the directory `itemPath` of a childless node is **not** created.
Permuting sibling order (at any depth) does not change the set of
created directory paths. -/
theorem C1_parent_dirs_created_and_perm_invariant
    (env : Env) (f f' : Forest) (cur base : String) (st st₁ st₂ : St)
    (hmk : ∀ k, env.mkdirFails k = false)
    (h₁ : processMenuItems env f cur base st = .ok st₁) :
    (∀ (m : MenuNode) (c : String), Visits f cur m c → c ∈ st₁.dirs) ∧
    (FPerm f f' → processMenuItems env f' cur base st = .ok st₂ →
      ∀ x, x ∈ st₁.dirs ↔ x ∈ st₂.dirs) := by
  have hd₁ := processMenuItems_dirs env f cur base st st₁ hmk h₁
  constructor
  · intro m c hv
    rw [hd₁]
    exact List.mem_append_right _ hv.mem_dirsForest
  · intro hperm h₂
    have hd₂ := processMenuItems_dirs env f' cur base st st₂ hmk h₂
    intro x
    rw [hd₁, hd₂]
    simp only [List.mem_append]
    exact or_congr Iff.rfl (hperm.mem_dirsForest_iff cur x)

/-- A two-level tree: node `"N"` with the single leaf child `"b"`. -/
def branchForest : Forest :=
  .cons (.mk (some "N") none (some (.cons (.mk (some "b") none none) .nil)))
    .nil

/-- Witness for C1: on the concrete two-level tree the walk succeeds,
the leaf's `currentFsPath` `"r/N"` is among the created directories, and
the identity sibling permutation preserves the set. -/
theorem C1_parent_dirs_created_and_perm_invariant_witness :
    "r/N" ∈ (⟨2, ["r", "r/N"], [], [], []⟩ : St).dirs ∧
    ("r" ∈ (⟨2, ["r", "r/N"], [], [], []⟩ : St).dirs ↔
      "r" ∈ (⟨2, ["r", "r/N"], [], [], []⟩ : St).dirs) := by
  have h := C1_parent_dirs_created_and_perm_invariant envOk branchForest
    branchForest "r" "B/" St.empty ⟨2, ["r", "r/N"], [], [], []⟩
    ⟨2, ["r", "r/N"], [], [], []⟩ (fun k => rfl) (by decide)
  refine ⟨h.1 (.mk (some "b") none none) "r/N" ?_, ?_⟩
  · exact Visits.child _ rfl (Visits.head _ _ _)
  · exact h.2 (FPerm.consS (some "N") none
      (FPerm.consN (some "b") none FPerm.nil) FPerm.nil) (by decide) "r"

/-- C4: when a file already exists at the destination (any contents —
the lookup ignores the body, so a zero-byte file counts), the engine
reports success, issues no network request, and leaves the stored files
— in particular the existing file's contents — unchanged. -/
theorem C4_skip_existing (env : Env) (st : St) (u p : String)
    (hf : (List.lookup p st.files).isSome) :
    (downloadFile env st u p).1 = true ∧
    (downloadFile env st u p).2.fetches = st.fetches ∧
    (downloadFile env st u p).2.files = st.files := by
  rw [downloadFile_exists env st u p hf]
  exact ⟨rfl, rfl, rfl⟩

/-- Witness for C4: a pre-created zero-byte file at `"r/a.pdf"` makes
the engine succeed with no fetch and the empty file intact. -/
theorem C4_skip_existing_witness :
    (downloadFile envOk ⟨0, [], [("r/a.pdf", "")], [], []⟩ "u" "r/a.pdf").1
      = true ∧
    (downloadFile envOk ⟨0, [], [("r/a.pdf", "")], [], []⟩ "u"
      "r/a.pdf").2.fetches = [] ∧
    (downloadFile envOk ⟨0, [], [("r/a.pdf", "")], [], []⟩ "u"
      "r/a.pdf").2.files = [("r/a.pdf", "")] :=
  C4_skip_existing envOk ⟨0, [], [("r/a.pdf", "")], [], []⟩ "u" "r/a.pdf"
    (by decide)

/-- An environment whose very first `mkdir` fails and whose later ones
succeed; every fetch succeeds. -/
def envFirstMkdirFails : Env := ⟨fun _ => .ok "pdfbody", fun k => k == 0⟩

/-- Two childless document-bearing siblings `"A"` and `"B"`. -/
def twoSiblings : Forest :=
  .cons (.mk (some "A") (some "a.html") (some .nil))
    (.cons (.mk (some "B") (some "b.html") (some .nil)) .nil)

/-- C6: a failed directory creation makes the walker skip the node
entirely — its state contribution is only the consumed `mkdir` attempt:
no directory, no download-engine invocation, no visit of descendants —
while the loop continues with the later siblings from that state; on the
concrete two-sibling tree whose first `mkdir` attempt fails, the second
sibling still gets its directory created and its download attempted. -/
theorem C6_mkdir_failure_skips_node_only
    (env : Env) (t h : Option String) (ch : Option Forest)
    (rest : Forest) (cur base : String) (st : St)
    (hm : env.mkdirFails st.tick = true) :
    processMenuItem env (.mk t h ch) cur base st =
      .ok { st with tick := st.tick + 1 } ∧
    processMenuItems env (.cons (.mk t h ch) rest) cur base st =
      processMenuItems env rest cur base { st with tick := st.tick + 1 } ∧
    processMenuItems envFirstMkdirFails twoSiblings "r" "B/" St.empty =
      .ok ⟨2, ["r"], [("r/B.pdf", "pdfbody")], ["B/b.pdf"],
        [("B/b.pdf", "r/B.pdf")]⟩ := by
  refine ⟨processMenuItem_mkdirFail env t h ch cur base st hm, ?_, by decide⟩
  rw [processMenuItems_cons,
    processMenuItem_mkdirFail env t h ch cur base st hm]

/-- Witness for C6: instantiated on the environment whose first `mkdir`
attempt fails, with a concrete node and sibling list. -/
theorem C6_mkdir_failure_skips_node_only_witness :
    processMenuItem envFirstMkdirFails (.mk (some "A") (some "a.html")
      (some .nil)) "r" "B/" St.empty = .ok ⟨1, [], [], [], []⟩ ∧
    processMenuItems envFirstMkdirFails twoSiblings "r" "B/" St.empty =
      processMenuItems envFirstMkdirFails
        (.cons (.mk (some "B") (some "b.html") (some .nil)) .nil)
        "r" "B/" ⟨1, [], [], [], []⟩ ∧
    processMenuItems envFirstMkdirFails twoSiblings "r" "B/" St.empty =
      .ok ⟨2, ["r"], [("r/B.pdf", "pdfbody")], ["B/b.pdf"],
        [("B/b.pdf", "r/B.pdf")]⟩ :=
  C6_mkdir_failure_skips_node_only envFirstMkdirFails (some "A")
    (some "a.html") (some .nil)
    (.cons (.mk (some "B") (some "b.html") (some .nil)) .nil)
    "r" "B/" St.empty (by decide)

/-- Trimming is the identity on strings with no whitespace characters. -/
theorem trimChars_eq_self {l : List Char}
    (h : ∀ c ∈ l, jsWhitespace c = false) : trimChars l = l := by
  unfold trimChars
  have h₁ : l.dropWhile jsWhitespace = l := by
    cases l with
    | nil => rfl
    | cons a as =>
      rw [List.dropWhile_cons]
      simp [h a (by simp)]
  rw [h₁]
  have h₂ : l.reverse.dropWhile jsWhitespace = l.reverse := by
    cases hr : l.reverse with
    | nil => rfl
    | cons a as =>
      have ha : a ∈ l := by
        rw [← List.mem_reverse, hr]
        simp
      rw [List.dropWhile_cons]
      simp [h a ha]
  rw [h₂, List.reverse_reverse]

/-- The double-space pass is the identity on strings with no spaces. -/
theorem collapseDouble_eq_self {l : List Char} (h : ∀ c ∈ l, c ≠ ' ') :
    collapseDouble l = l := by
  induction l with
  | nil => rfl
  | cons a as ih =>
    cases as with
    | nil => rfl
    | cons b bs =>
      rw [collapseDouble]
      rw [if_neg (fun hh => h a (by simp) hh.1)]
      rw [ih (fun c hc => h c (List.mem_cons_of_mem a hc))]

/-- On a non-empty title with no whitespace characters at all,
`sanitizeFilename` is exactly the independent pointwise replacement of
each forbidden character by `_`: trimming and the double-space pass
change nothing. -/
theorem sanitizeFilename_pointwise (s : String) (hne : s.data ≠ [])
    (hws : ∀ c ∈ s.data, jsWhitespace c = false) :
    sanitizeFilename (some s) = String.mk (replaceBad s.data) := by
  have hs : s ≠ "" := by
    intro hh
    subst hh
    exact hne rfl
  have hmem : ∀ c ∈ replaceBad s.data, jsWhitespace c = false := by
    intro c hc
    rcases List.mem_map.mp hc with ⟨d, hd, hdc⟩
    by_cases hb : badChar d
    · rw [← hdc]
      simp [hb, jsWhitespace]
    · rw [← hdc]
      simp only [hb]
      simpa using hws d hd
  have hnsp : ∀ c ∈ replaceBad s.data, c ≠ ' ' := by
    intro c hc hsp
    have := hmem c hc
    rw [hsp] at this
    simp [jsWhitespace] at this
  rw [sanitizeFilename]
  rw [if_neg hs]
  rw [trimChars_eq_self hmem, collapseDouble_eq_self hnsp]
  have hrne : String.mk (replaceBad s.data) ≠ "" := by
    intro hh
    have hdata : replaceBad s.data = [] := by
      have := congrArg String.data hh
      simpa using this
    rw [replaceBad, List.map_eq_nil_iff] at hdata
    exact hne hdata
  simp [hrne]

/-- C7: `sanitizeFilename` replaces each forbidden character
`< > : " / \ | ? *` by `_` independently (no merging of adjacent
replacements: on whitespace-free input it is the pointwise replacement),
trims, collapses double spaces in a single non-recursive pass (four
spaces shrink to two, not one), yields `"untitled"` on non-string and on
empty input, and maps `"A/B: C"` to `"A_B_ C"`. -/
theorem C7_sanitize_behaviour :
    sanitizeFilename (some "A/B: C") = "A_B_ C" ∧
    sanitizeFilename none = "untitled" ∧
    sanitizeFilename (some "") = "untitled" ∧
    sanitizeFilename (some "a    b") = "a  b" ∧
    sanitizeFilename (some "  x  ") = "x" ∧
    sanitizeFilename (some "a<>b") = "a__b" ∧
    (∀ s : String, s.data ≠ [] → (∀ c ∈ s.data, jsWhitespace c = false) →
      sanitizeFilename (some s) = String.mk (replaceBad s.data)) :=
  ⟨by decide, by decide, by decide, by decide, by decide, by decide,
   sanitizeFilename_pointwise⟩

/-- Witness for C7: the universally quantified pointwise clause applied
to the concrete whitespace-free title `"a|b*c"`. -/
theorem C7_sanitize_behaviour_witness :
    sanitizeFilename (some "a|b*c") = "a_b_c" := by
  have h := C7_sanitize_behaviour.2.2.2.2.2.2 "a|b*c" (by decide)
    (by decide)
  rw [h]
  decide

/-- Membership of a node in a forest. -/
def Forest.Mem (n : MenuNode) : Forest → Prop
  | .nil => False
  | .cons h t => n = h ∨ Forest.Mem n t

/-- The dedup scan succeeds exactly when some direct child carries the
same (truthy) href. -/
theorem hrefDupScan_iff (cf : Forest) (hs : String) (hne : hs ≠ "") :
    hrefDupScan cf hs = true ↔
      ∃ c, Forest.Mem c cf ∧ c.href = some hs := by
  cases cf with
  | nil =>
    rw [hrefDupScan]
    simp [Forest.Mem]
  | cons d rest =>
    have ih := hrefDupScan_iff rest hs hne
    rw [hrefDupScan]
    simp only [Forest.Mem]
    cases hd : d.href with
    | none =>
      simp only [hd, Bool.false_or, ih]
      constructor
      · rintro ⟨c, hc, hh⟩
        exact ⟨c, Or.inr hc, hh⟩
      · rintro ⟨c, hc | hc, hh⟩
        · subst hc
          rw [hd] at hh
          cases hh
        · exact ⟨c, hc, hh⟩
    | some ch =>
      simp only [hd, Bool.or_eq_true, Bool.and_eq_true, bne_iff_ne,
        beq_iff_eq, ih]
      constructor
      · rintro (⟨hch1, hch2⟩ | ⟨c, hc, hh⟩)
        · exact ⟨d, Or.inl rfl, by rw [hd, hch2]⟩
        · exact ⟨c, Or.inr hc, hh⟩
      · rintro ⟨c, hc | hc, hh⟩
        · subst hc
          rw [hd] at hh
          injection hh with hh
          subst hh
          exact Or.inl ⟨hne, rfl⟩
        · exact Or.inr ⟨c, hc, hh⟩

/-- A three-level chain `N → C → D`, every node holding the same
`documentRef` `"x.html"`. -/
def chainForest : Forest :=
  .cons (.mk (some "N") (some "x.html")
    (some (.cons (.mk (some "C") (some "x.html")
      (some (.cons (.mk (some "D") (some "x.html") (some .nil)) .nil)))
      .nil)))
    .nil

/-- C2 counterexample: in the chain `N → C → D` with one shared
`documentRef`, `N` has a direct child `C` with an equal `documentRef`,
so the claim asserts the single download is attributed to `C`'s path
(`"r/N/C/C.pdf"`, since `C` has children).  The walk instead suppresses
`C` as well (its own child `D` matches) and the single engine call is
attributed to `D`'s path `"r/N/C/D.pdf"`. -/
theorem C2_counterexample :
    callsOf (processMenuItems envOk chainForest "r" "B/" St.empty) =
      [("B/x.pdf", "r/N/C/D.pdf")] ∧
    (("B/x.pdf", "r/N/C/C.pdf") ∈
        callsOf (processMenuItems envOk chainForest "r" "B/" St.empty)
      → False) := by
  decide

/-- The spec's two-node example: `N` with sole child `C`, both with
`documentRef` `"x.html"`, `C` childless (empty children array). -/
def pairForest : Forest :=
  .cons (.mk (some "N") (some "x.html")
    (some (.cons (.mk (some "C") (some "x.html") (some .nil)) .nil)))
    .nil

/-- C2 (amended): when a node's href parses and some direct child holds
an equal `documentRef`, the walker never invokes the download engine for
that node and proceeds straight to the children recursion; when no
direct child matches — however many deeper descendants do — the engine
is invoked for the node itself; and in the spec's two-node example
exactly one download occurs, attributed to `C`'s path.  (In general the
one download need not land on `C`'s own path: a matching child of `C`
pushes it deeper, as the counterexample shows.) -/
theorem C2_dedup_one_level (env : Env) (t : Option String)
    (hs bn : String) (cf : Forest) (cur base : String) (st : St)
    (hm : env.mkdirFails st.tick = false)
    (hne : hs ≠ "") (hp : pdfNameMatch hs = some bn) (hbn : bn ≠ "") :
    ((∃ c, Forest.Mem c cf ∧ c.href = some hs) →
      processMenuItem env (.mk t (some hs) (some cf)) cur base st =
        childrenStep env (some cf)
          (itemPathOf cur (.mk t (some hs) (some cf))) base
          (stAfterMkdir st cur)) ∧
    ((∀ c, Forest.Mem c cf → c.href ≠ some hs) →
      processMenuItem env (.mk t (some hs) (some cf)) cur base st =
        childrenStep env (some cf)
          (itemPathOf cur (.mk t (some hs) (some cf))) base
          (downloadFile env (stAfterMkdir st cur)
            (urlResolve base (encodeURIComponent bn ++ ".pdf"))
            (if cf.length > 0 then
              itemPathOf cur (.mk t (some hs) (some cf)) ++ "/" ++
                sanTitleOf (.mk t (some hs) (some cf)) ++ ".pdf"
             else itemPathOf cur (.mk t (some hs) (some cf)) ++ ".pdf")).2) ∧
    callsOf (processMenuItems envOk pairForest "r" "B/" St.empty) =
      [("B/x.pdf", "r/N/C.pdf")] := by
  refine ⟨fun hex => ?_, fun hnone => ?_, by decide⟩
  · exact processMenuItem_dupSkip env t hs bn cf cur base st hm hne hp hbn
      ((hrefDupScan_iff cf hs hne).mpr hex)
  · have hdup : hrefDupScan cf hs = false := by
      rcases hd : hrefDupScan cf hs with _ | _
      · rfl
      · rcases (hrefDupScan_iff cf hs hne).mp hd with ⟨c, hc, hh⟩
        exact absurd hh (hnone c hc)
    exact processMenuItem_download env t hs bn cf cur base st hm hne hp
      hbn hdup

/-- Witness for C2: the dedup clause applied to the concrete parent of
the two-node example — the iteration reduces to the children recursion
with no engine call of its own. -/
theorem C2_dedup_one_level_witness :
    processMenuItem envOk (.mk (some "N") (some "x.html")
      (some (.cons (.mk (some "C") (some "x.html") (some .nil)) .nil)))
      "r" "B/" St.empty =
    childrenStep envOk
      (some (.cons (.mk (some "C") (some "x.html") (some .nil)) .nil))
      (itemPathOf "r" (.mk (some "N") (some "x.html")
        (some (.cons (.mk (some "C") (some "x.html") (some .nil)) .nil))))
      "B/" (stAfterMkdir St.empty "r") :=
  (C2_dedup_one_level envOk (some "N") "x.html" "x" _ "r" "B/" St.empty
    rfl (by decide) (by decide) (by decide)).1
    ⟨.mk (some "C") (some "x.html") (some .nil), Or.inl rfl, rfl⟩

/-- C8: an href that fails the document pattern (no regex match, or an
empty captured base name) makes the node behave exactly as if it had no
`documentRef` — no download attempted, no error — and the walk still
recurses into non-empty children; when the pattern does match (base name
`bn`), the engine is invoked with the source URL formed by
percent-encoding `bn`, appending `.pdf` and resolving it against the
document base URL. -/
theorem C8_pattern_gate_and_url (env : Env) (t : Option String)
    (hs : String) (cur base : String) (st : St)
    (hm : env.mkdirFails st.tick = false) :
    ((pdfNameMatch hs = none ∨ pdfNameMatch hs = some "") →
      ∀ ch : Option Forest,
        processMenuItem env (.mk t (some hs) ch) cur base st =
          processMenuItem env (.mk t none ch) cur base st) ∧
    ((pdfNameMatch hs = none ∨ pdfNameMatch hs = some "") →
      ∀ cf : Forest, cf.length > 0 →
        processMenuItem env (.mk t (some hs) (some cf)) cur base st =
          processMenuItems env cf
            (itemPathOf cur (.mk t (some hs) (some cf))) base
            (stAfterMkdir st cur)) ∧
    (∀ (bn : String) (cf : Forest), hs ≠ "" → pdfNameMatch hs = some bn →
      bn ≠ "" → hrefDupScan cf hs = false →
      processMenuItem env (.mk t (some hs) (some cf)) cur base st =
        childrenStep env (some cf)
          (itemPathOf cur (.mk t (some hs) (some cf))) base
          (downloadFile env (stAfterMkdir st cur)
            (urlResolve base (encodeURIComponent bn ++ ".pdf"))
            (if cf.length > 0 then
              itemPathOf cur (.mk t (some hs) (some cf)) ++ "/" ++
                sanTitleOf (.mk t (some hs) (some cf)) ++ ".pdf"
             else itemPathOf cur (.mk t (some hs) (some cf)) ++ ".pdf")).2) := by
  refine ⟨fun hp ch => ?_, fun hp cf hl => ?_, fun bn cf hne hp hbn hdup => ?_⟩
  · exact (processMenuItem_parseFailStep env t hs ch cur base st hm hp).trans
      (processMenuItem_noHref env t ch cur base st hm).symm
  · rw [processMenuItem_parseFailStep env t hs (some cf) cur base st hm hp,
      childrenStep, if_pos hl]
  · exact processMenuItem_download env t hs bn cf cur base st hm hne hp
      hbn hdup

/-- Witness for C8: the href `"nope"` (no `.html`) is treated as no
document on a concrete childless node. -/
theorem C8_pattern_gate_and_url_witness :
    processMenuItem envOk (.mk (some "T") (some "nope") (some .nil))
      "r" "B/" St.empty =
    processMenuItem envOk (.mk (some "T") none (some .nil))
      "r" "B/" St.empty :=
  (C8_pattern_gate_and_url envOk (some "T") "nope" "r" "B/" St.empty
    rfl).1 (Or.inl (by decide)) (some .nil)

/-- `x` is a download-engine invocation the walk of `f` at `cur` can
produce: some reachable node `m`, processed at `currentFsPath` `c`, with
a parsing href, a present children field, a failing dedup scan, the
derived source URL, and the branch/leaf-dependent target path. -/
def CallSpec (f : Forest) (cur base : String) (x : String × String) :
    Prop :=
  ∃ (m : MenuNode) (c : String), Visits f cur m c ∧
    ∃ (hs bn : String) (cf : Forest),
      m.href = some hs ∧ hs ≠ "" ∧ pdfNameMatch hs = some bn ∧ bn ≠ "" ∧
      m.children = some cf ∧ hrefDupScan cf hs = false ∧
      x.1 = urlResolve base (encodeURIComponent bn ++ ".pdf") ∧
      x.2 = (if cf.length > 0 then
               itemPathOf c m ++ "/" ++ sanTitleOf m ++ ".pdf"
             else itemPathOf c m ++ ".pdf")

/-- A visit inside a singleton forest is a visit in any forest with the
same head. -/
theorem Visits.of_singleton {n : MenuNode} {rest : Forest} {cur : String}
    {m : MenuNode} {c : String} (h : Visits (.cons n .nil) cur m c) :
    Visits (.cons n rest) cur m c := by
  cases h with
  | head => exact .head _ _ _
  | tail _ hv => exact absurd rfl hv.ne_nil
  | child rest' hch hv => exact .child _ hch hv

/-- Lift a call of the head item to the whole sequence. -/
theorem CallSpec.lift_head {n : MenuNode} {rest : Forest}
    {cur base : String} {x : String × String}
    (h : CallSpec (.cons n .nil) cur base x) :
    CallSpec (.cons n rest) cur base x := by
  rcases h with ⟨m, c, hv, rest'⟩
  exact ⟨m, c, hv.of_singleton, rest'⟩

/-- Lift a call of the tail sequence to the whole sequence. -/
theorem CallSpec.lift_tail {n : MenuNode} {rest : Forest}
    {cur base : String} {x : String × String}
    (h : CallSpec rest cur base x) : CallSpec (.cons n rest) cur base x := by
  rcases h with ⟨m, c, hv, rest'⟩
  exact ⟨m, c, .tail _ hv, rest'⟩

/-- Lift a call of the children of `n` to a sequence headed by `n`. -/
theorem CallSpec.lift_child {n : MenuNode} {cf rest : Forest}
    {cur base : String} {x : String × String}
    (hch : n.children = some cf)
    (h : CallSpec cf (itemPathOf cur n) base x) :
    CallSpec (.cons n rest) cur base x := by
  rcases h with ⟨m, c, hv, rest'⟩
  exact ⟨m, c, .child _ hch hv, rest'⟩

mutual
/-- Every engine invocation a fault-free walk appends is described by
`CallSpec`: it belongs to a reachable node, with the derived URL and the
branch/leaf target-path rule. -/
theorem processMenuItems_calls (env : Env) (f : Forest) (cur base : String)
    (st st' : St) (h : processMenuItems env f cur base st = .ok st') :
    ∀ x ∈ st'.calls, x ∈ st.calls ∨ CallSpec f cur base x := by
  cases f with
  | nil =>
    rw [processMenuItems_nil] at h
    cases h
    exact fun x hx => Or.inl hx
  | cons item rest =>
    rw [processMenuItems_cons] at h
    rcases hh : processMenuItem env item cur base st with e | st₁ <;>
      rw [hh] at h
    · cases h
    · intro x hx
      rcases processMenuItems_calls env rest cur base st₁ st' h x hx with
        hx₁ | hx₁
      · rcases processMenuItem_calls env item cur base st st₁ hh x hx₁ with
          hx₂ | hx₂
        · exact Or.inl hx₂
        · exact Or.inr hx₂.lift_head
      · exact Or.inr hx₁.lift_tail

/-- Every engine invocation one fault-free iteration appends is
described by `CallSpec` of the singleton sequence. -/
theorem processMenuItem_calls (env : Env) (n : MenuNode) (cur base : String)
    (st st' : St) (h : processMenuItem env n cur base st = .ok st') :
    ∀ x ∈ st'.calls, x ∈ st.calls ∨ CallSpec (.cons n .nil) cur base x := by
  cases n with
  | mk t hr ch =>
    by_cases hm : env.mkdirFails st.tick = true
    · rw [processMenuItem_mkdirFail env t hr ch cur base st hm] at h
      cases h
      exact fun x hx => Or.inl hx
    · rw [Bool.not_eq_true] at hm
      have hstep : ∀ st₂ : St,
          (∀ y ∈ st₂.calls, y ∈ st.calls ∨
            CallSpec (.cons (.mk t hr ch) .nil) cur base y) →
          childrenStep env ch (itemPathOf cur (.mk t hr ch)) base st₂ =
            .ok st' →
          ∀ x ∈ st'.calls, x ∈ st.calls ∨
            CallSpec (.cons (.mk t hr ch) .nil) cur base x := by
        intro st₂ hbase hcs x hx
        cases ch with
        | none =>
          rw [childrenStep] at hcs
          cases hcs
          exact hbase x hx
        | some cf =>
          rw [childrenStep] at hcs
          by_cases hl : cf.length > 0
          · rw [if_pos hl] at hcs
            rcases processMenuItems_calls env cf
              (itemPathOf cur (.mk t hr (some cf))) base st₂ st' hcs x hx
              with hx₁ | hx₁
            · exact hbase x hx₁
            · exact Or.inr (hx₁.lift_child rfl)
          · rw [if_neg hl] at hcs
            cases hcs
            exact hbase x hx
      cases hr with
      | none =>
        rw [processMenuItem_noHref env t ch cur base st hm] at h
        exact hstep (stAfterMkdir st cur) (fun y hy => Or.inl hy) h
      | some hs =>
        by_cases he : hs = ""
        · subst he
          rw [processMenuItem_emptyHref env t ch cur base st hm] at h
          exact hstep (stAfterMkdir st cur) (fun y hy => Or.inl hy) h
        · rcases hp : pdfNameMatch hs with _ | bn
          · rw [processMenuItem_parseFailStep env t hs ch cur base st hm
              (Or.inl hp)] at h
            exact hstep (stAfterMkdir st cur) (fun y hy => Or.inl hy) h
          · by_cases hbn : bn = ""
            · subst hbn
              rw [processMenuItem_parseFailStep env t hs ch cur base st hm
                (Or.inr hp)] at h
              exact hstep (stAfterMkdir st cur) (fun y hy => Or.inl hy) h
            · cases ch with
              | none =>
                rw [processMenuItem_childrenFault env t hs bn cur base st
                  hm he hp hbn] at h
                cases h
              | some cf =>
                rcases hdup : hrefDupScan cf hs with _ | _
                · rw [processMenuItem_download env t hs bn cf cur base st
                    hm he hp hbn hdup] at h
                  refine hstep _ (fun y hy => ?_) h
                  have hcalls := (downloadFile_frame env
                    (stAfterMkdir st cur)
                    (urlResolve base (encodeURIComponent bn ++ ".pdf"))
                    (if cf.length > 0 then
                      itemPathOf cur (.mk t (some hs) (some cf)) ++ "/" ++
                        sanTitleOf (.mk t (some hs) (some cf)) ++ ".pdf"
                     else itemPathOf cur (.mk t (some hs) (some cf)) ++
                        ".pdf")).2
                  rw [hcalls] at hy
                  rcases List.mem_append.mp hy with hy₁ | hy₁
                  · exact Or.inl hy₁
                  · refine Or.inr ⟨.mk t (some hs) (some cf), cur,
                      .head _ _ _, hs, bn, cf, rfl, he, hp, hbn, rfl, hdup,
                      ?_, ?_⟩
                    · rw [List.mem_singleton.mp hy₁]
                    · rw [List.mem_singleton.mp hy₁]
                · rw [processMenuItem_dupSkip env t hs bn cf cur base st
                    hm he hp hbn hdup] at h
                  exact hstep (stAfterMkdir st cur) (fun y hy => Or.inl hy) h
end

/-- C3: every engine invocation a fault-free walk records targets the
path dictated by the node's children: a node with non-empty children
stores its document inside its own directory
(`itemPath/sanitizedTitle.pdf`), a childless node stores it as
`itemPath.pdf`, sibling to its would-be directory. -/
theorem C3_document_path_by_children (env : Env) (f : Forest)
    (cur base : String) (st st' : St)
    (h : processMenuItems env f cur base st = .ok st') :
    ∀ x ∈ st'.calls, x ∈ st.calls ∨
      ∃ (m : MenuNode) (c : String) (cf : Forest), Visits f cur m c ∧
        m.children = some cf ∧
        ((cf.length > 0 ∧
            x.2 = itemPathOf c m ++ "/" ++ sanTitleOf m ++ ".pdf") ∨
         (cf.length = 0 ∧ x.2 = itemPathOf c m ++ ".pdf")) := by
  intro x hx
  rcases processMenuItems_calls env f cur base st st' h x hx with hx₁ | hx₁
  · exact Or.inl hx₁
  · rcases hx₁ with ⟨m, c, hv, hs, bn, cf, hhr, hne, hp, hbn, hch, hdup,
      hurl, hpath⟩
    refine Or.inr ⟨m, c, cf, hv, hch, ?_⟩
    by_cases hl : cf.length > 0
    · rw [if_pos hl] at hpath
      exact Or.inl ⟨hl, hpath⟩
    · rw [if_neg hl] at hpath
      exact Or.inr ⟨Nat.eq_zero_of_not_pos hl, hpath⟩

/-- Two document-bearing siblings: `"P"` with a (document-free) child,
and the childless `"L"`. -/
def docPair : Forest :=
  .cons (.mk (some "P") (some "p.html")
    (some (.cons (.mk (some "q") none none) .nil)))
    (.cons (.mk (some "L") (some "l.html") (some .nil)) .nil)

/-- Witness for C3: on the concrete pair, the branch node's call is
accounted for by the path rule. -/
theorem C3_document_path_by_children_witness :
    ("B/p.pdf", "r/P/P.pdf") ∈ St.empty.calls ∨
    ∃ (m : MenuNode) (c : String) (cf : Forest), Visits docPair "r" m c ∧
      m.children = some cf ∧
      ((cf.length > 0 ∧
          ("B/p.pdf", "r/P/P.pdf").2 =
            itemPathOf c m ++ "/" ++ sanTitleOf m ++ ".pdf") ∨
       (cf.length = 0 ∧
          ("B/p.pdf", "r/P/P.pdf").2 = itemPathOf c m ++ ".pdf")) :=
  C3_document_path_by_children envOk docPair "r" "B/" St.empty
    ⟨3, ["r", "r/P", "r"],
      [("r/P/P.pdf", "pdfbody"), ("r/L.pdf", "pdfbody")],
      ["B/p.pdf", "B/l.pdf"],
      [("B/p.pdf", "r/P/P.pdf"), ("B/l.pdf", "r/L.pdf")]⟩
    (by decide) ("B/p.pdf", "r/P/P.pdf") (by decide)

mutual
/-- The precondition under which the walker cannot fault: whenever a
node's href parses to a non-empty base name (the situation in which the
dedup scan and target-path computation dereference `item.children`
unguarded), the children field is present; and the condition holds
recursively in every present children sequence. -/
inductive NodeWF : MenuNode → Prop where
  | mk (t h : Option String) (ch : Option Forest) :
      (∀ hs bn, h = some hs → hs ≠ "" → pdfNameMatch hs = some bn →
        bn ≠ "" → ch ≠ none) →
      (∀ cf, ch = some cf → ForestWF cf) → NodeWF (.mk t h ch)

/-- All nodes of the forest are well-formed. -/
inductive ForestWF : Forest → Prop where
  | nil : ForestWF .nil
  | cons {n : MenuNode} {f : Forest} :
      NodeWF n → ForestWF f → ForestWF (.cons n f)
end

mutual
/-- Under the children-field precondition the walk is total: whatever
the network does and whenever `mkdir` fails, it terminates without an
unhandled fault. -/
theorem processMenuItems_total (env : Env) (f : Forest) (cur base : String)
    (st : St) (hwf : ForestWF f) :
    ∃ st', processMenuItems env f cur base st = .ok st' := by
  cases f with
  | nil => exact ⟨st, processMenuItems_nil env cur base st⟩
  | cons n rest =>
    cases hwf with
    | cons hn hrest =>
      rcases processMenuItem_total env n cur base st hn with ⟨st₁, h₁⟩
      rcases processMenuItems_total env rest cur base st₁ hrest with
        ⟨st', h₂⟩
      refine ⟨st', ?_⟩
      rw [processMenuItems_cons, h₁]
      exact h₂

/-- Under the children-field precondition one loop iteration is total. -/
theorem processMenuItem_total (env : Env) (n : MenuNode) (cur base : String)
    (st : St) (hwf : NodeWF n) :
    ∃ st', processMenuItem env n cur base st = .ok st' := by
  cases n with
  | mk t hr ch =>
    by_cases hm : env.mkdirFails st.tick = true
    · exact ⟨_, processMenuItem_mkdirFail env t hr ch cur base st hm⟩
    · rw [Bool.not_eq_true] at hm
      cases hwf with
      | mk _ _ _ hguard hchwf =>
        have hstep : ∀ st₂ : St,
            ∃ st', childrenStep env ch
              (itemPathOf cur (.mk t hr ch)) base st₂ = .ok st' := by
          intro st₂
          cases ch with
          | none => exact ⟨st₂, by rw [childrenStep]⟩
          | some cf =>
            rw [childrenStep]
            by_cases hl : cf.length > 0
            · rw [if_pos hl]
              exact processMenuItems_total env cf _ base st₂ (hchwf cf rfl)
            · rw [if_neg hl]
              exact ⟨st₂, rfl⟩
        cases hr with
        | none =>
          rcases hstep (stAfterMkdir st cur) with ⟨st', hcs⟩
          exact ⟨st', by rw [processMenuItem_noHref env t ch cur base st hm,
            hcs]⟩
        | some hs =>
          by_cases he : hs = ""
          · subst he
            rcases hstep (stAfterMkdir st cur) with ⟨st', hcs⟩
            exact ⟨st', by rw [processMenuItem_emptyHref env t ch cur base
              st hm, hcs]⟩
          · rcases hp : pdfNameMatch hs with _ | bn
            · rcases hstep (stAfterMkdir st cur) with ⟨st', hcs⟩
              exact ⟨st', by rw [processMenuItem_parseFailStep env t hs ch
                cur base st hm (Or.inl hp), hcs]⟩
            · by_cases hbn : bn = ""
              · subst hbn
                rcases hstep (stAfterMkdir st cur) with ⟨st', hcs⟩
                exact ⟨st', by rw [processMenuItem_parseFailStep env t hs ch
                  cur base st hm (Or.inr hp), hcs]⟩
              · cases hch : ch with
                | none =>
                  exact absurd hch (hguard hs bn rfl he hp hbn)
                | some cf =>
                  subst hch
                  rcases hdup : hrefDupScan cf hs with _ | _
                  · rcases hstep ((downloadFile env (stAfterMkdir st cur)
                      (urlResolve base (encodeURIComponent bn ++ ".pdf"))
                      (if cf.length > 0 then
                        itemPathOf cur (.mk t (some hs) (some cf)) ++ "/" ++
                          sanTitleOf (.mk t (some hs) (some cf)) ++ ".pdf"
                       else itemPathOf cur (.mk t (some hs) (some cf)) ++
                          ".pdf")).2) with ⟨st', hcs⟩
                    exact ⟨st', by rw [processMenuItem_download env t hs bn
                      cf cur base st hm he hp hbn hdup, hcs]⟩
                  · rcases hstep (stAfterMkdir st cur) with ⟨st', hcs⟩
                    exact ⟨st', by rw [processMenuItem_dupSkip env t hs bn
                      cf cur base st hm he hp hbn hdup, hcs]⟩
end

/-- C10: the walk is total under the precondition that every node whose
href parses to a non-empty base name has a children field; and the
precondition is necessary — a single node with a matching
`documentRef` and an absent children field makes the walk abort with the
unhandled fault instead of processing the node. -/
theorem C10_totality_needs_children_field (env : Env) (f : Forest)
    (cur base : String) (st : St) (hwf : ForestWF f) :
    (∃ st', processMenuItems env f cur base st = .ok st') ∧
    processMenuItems envOk
      (.cons (.mk (some "t") (some "x.html") none) .nil)
      "r" "B/" St.empty = .error .childrenUndefined :=
  ⟨processMenuItems_total env f cur base st hwf, by decide⟩

/-- Witness for C10: the totality clause on a concrete well-formed
one-leaf forest. -/
theorem C10_totality_needs_children_field_witness :
    runOk (processMenuItems envOk leafOnlyForest "r" "B/" St.empty) =
      true := by
  rcases (C10_totality_needs_children_field envOk leafOnlyForest "r" "B/"
      St.empty
      (ForestWF.cons
        (NodeWF.mk (some "a") none none
          (fun hs bn hh hne hp hbn => Option.noConfusion hh)
          (fun cf hcf => Option.noConfusion hcf))
        ForestWF.nil)).1 with ⟨st', h⟩
  rw [h]
  rfl

/-- The download-engine invocation (empty or singleton) produced by the
href block of one fault-free loop iteration. -/
def ownCallOf (t h : Option String) (ch : Option Forest)
    (cur base : String) : List (String × String) :=
  match h with
  | none => []
  | some hs =>
    if hs = "" then []
    else
      match pdfNameMatch hs with
      | none => []
      | some bn =>
        if bn = "" then []
        else
          match ch with
          | none => []
          | some cf =>
            if hrefDupScan cf hs then []
            else
              [(urlResolve base (encodeURIComponent bn ++ ".pdf"),
                if cf.length > 0 then
                  pathJoin cur (sanitizeFilename (some (jsTitle t))) ++
                    "/" ++ sanitizeFilename (some (jsTitle t)) ++ ".pdf"
                else
                  pathJoin cur (sanitizeFilename (some (jsTitle t))) ++
                    ".pdf")]

mutual
/-- The download-engine invocations of a fault-free, `mkdir`-failure-free
walk, as a pure function of the tree — independent, in particular, of
any network responses. -/
def callsForest : Forest → String → String → List (String × String)
  | .nil, _, _ => []
  | .cons n rest, cur, base =>
    callsItem n cur base ++ callsForest rest cur base

/-- The engine invocations one fault-free loop iteration produces: its
own href block's call, then those of the children recursion. -/
def callsItem : MenuNode → String → String → List (String × String)
  | .mk t h ch, cur, base =>
    ownCallOf t h ch cur base ++
      (match ch with
       | some cf =>
         if cf.length > 0 then
           callsForest cf
             (pathJoin cur (sanitizeFilename (some (jsTitle t)))) base
         else []
       | none => [])
end

/-- The engine invocations of the children recursion of one iteration. -/
def childCallsOf (t : Option String) (ch : Option Forest)
    (cur base : String) : List (String × String) :=
  match ch with
  | some cf =>
    if cf.length > 0 then
      callsForest cf (pathJoin cur (sanitizeFilename (some (jsTitle t))))
        base
    else []
  | none => []

/-- `callsItem` splits into the own call and the children calls. -/
theorem callsItem_eq (t h : Option String) (ch : Option Forest)
    (cur base : String) :
    callsItem (.mk t h ch) cur base =
      ownCallOf t h ch cur base ++ childCallsOf t ch cur base := by
  cases ch with
  | none => rw [callsItem, childCallsOf]
  | some cf => rw [callsItem, childCallsOf]

mutual
/-- With `mkdir` never failing, a fault-free walk appends exactly the
`callsForest` invocations to the engine log, whatever the network
responds. -/
theorem processMenuItems_callsEq (env : Env) (f : Forest)
    (cur base : String) (st st' : St)
    (hmk : ∀ k, env.mkdirFails k = false)
    (h : processMenuItems env f cur base st = .ok st') :
    st'.calls = st.calls ++ callsForest f cur base := by
  cases f with
  | nil =>
    rw [processMenuItems_nil] at h
    cases h
    rw [callsForest]
    simp
  | cons item rest =>
    rw [processMenuItems_cons] at h
    rcases hh : processMenuItem env item cur base st with e | st₁ <;>
      rw [hh] at h
    · cases h
    · have h₁ := processMenuItem_callsEq env item cur base st st₁ hmk hh
      have h₂ := processMenuItems_callsEq env rest cur base st₁ st' hmk h
      rw [h₂, h₁, callsForest]
      simp

/-- With `mkdir` never failing, one fault-free loop iteration appends
exactly the `callsItem` invocations to the engine log. -/
theorem processMenuItem_callsEq (env : Env) (n : MenuNode)
    (cur base : String) (st st' : St)
    (hmk : ∀ k, env.mkdirFails k = false)
    (h : processMenuItem env n cur base st = .ok st') :
    st'.calls = st.calls ++ callsItem n cur base := by
  cases n with
  | mk t hr ch =>
    have hstep : ∀ (st₂ : St) (pre : List (String × String)),
        st₂.calls = st.calls ++ pre →
        childrenStep env ch (itemPathOf cur (.mk t hr ch)) base st₂ =
          .ok st' →
        st'.calls = st.calls ++ (pre ++ childCallsOf t ch cur base) := by
      intro st₂ pre hd hcs
      cases ch with
      | none =>
        rw [childrenStep] at hcs
        cases hcs
        rw [hd, childCallsOf]
        simp
      | some cf =>
        rw [childrenStep] at hcs
        by_cases hl : cf.length > 0
        · rw [if_pos hl] at hcs
          have := processMenuItems_callsEq env cf
            (itemPathOf cur (.mk t hr (some cf))) base st₂ st' hmk hcs
          rw [this, hd, childCallsOf, if_pos hl]
          simp [itemPathOf, sanTitleOf, MenuNode.title]
        · rw [if_neg hl] at hcs
          cases hcs
          rw [hd, childCallsOf, if_neg hl]
          simp
    rw [callsItem_eq]
    cases hr with
    | none =>
      rw [processMenuItem_noHref env t ch cur base st (hmk st.tick)] at h
      have := hstep (stAfterMkdir st cur) [] (by simp [stAfterMkdir]) h
      rw [this]
      simp [ownCallOf]
    | some hs =>
      by_cases he : hs = ""
      · subst he
        rw [processMenuItem_emptyHref env t ch cur base st (hmk st.tick)]
          at h
        have := hstep (stAfterMkdir st cur) [] (by simp [stAfterMkdir]) h
        rw [this]
        simp [ownCallOf]
      · rcases hp : pdfNameMatch hs with _ | bn
        · rw [processMenuItem_parseFailStep env t hs ch cur base st
            (hmk st.tick) (Or.inl hp)] at h
          have := hstep (stAfterMkdir st cur) [] (by simp [stAfterMkdir]) h
          rw [this]
          simp [ownCallOf, he, hp]
        · by_cases hbn : bn = ""
          · subst hbn
            rw [processMenuItem_parseFailStep env t hs ch cur base st
              (hmk st.tick) (Or.inr hp)] at h
            have := hstep (stAfterMkdir st cur) [] (by simp [stAfterMkdir])
              h
            rw [this]
            simp [ownCallOf, he, hp]
          · cases ch with
            | none =>
              rw [processMenuItem_childrenFault env t hs bn cur base st
                (hmk st.tick) he hp hbn] at h
              cases h
            | some cf =>
              rcases hdup : hrefDupScan cf hs with _ | _
              · rw [processMenuItem_download env t hs bn cf cur base st
                  (hmk st.tick) he hp hbn hdup] at h
                have hfr := (downloadFile_frame env (stAfterMkdir st cur)
                  (urlResolve base (encodeURIComponent bn ++ ".pdf"))
                  (if cf.length > 0 then
                    itemPathOf cur (.mk t (some hs) (some cf)) ++ "/" ++
                      sanTitleOf (.mk t (some hs) (some cf)) ++ ".pdf"
                   else itemPathOf cur (.mk t (some hs) (some cf)) ++
                      ".pdf")).2
                have hpre := hstep _
                  [(urlResolve base (encodeURIComponent bn ++ ".pdf"),
                    if cf.length > 0 then
                      itemPathOf cur (.mk t (some hs) (some cf)) ++ "/" ++
                        sanTitleOf (.mk t (some hs) (some cf)) ++ ".pdf"
                     else itemPathOf cur (.mk t (some hs) (some cf)) ++
                        ".pdf")]
                  (by
                    rw [hfr]
                    simp [stAfterMkdir]) h
                rw [hpre]
                simp [ownCallOf, he, hp, hbn, hdup, itemPathOf, sanTitleOf,
                  MenuNode.title]
              · rw [processMenuItem_dupSkip env t hs bn cf cur base st
                  (hmk st.tick) he hp hbn hdup] at h
                have := hstep (stAfterMkdir st cur) []
                  (by simp [stAfterMkdir]) h
                rw [this]
                simp [ownCallOf, he, hp, hbn, hdup]
end

/-- An environment in which every fetch yields a non-success HTTP
status and `mkdir` never fails. -/
def envHttpFail : Env := ⟨fun _ => .httpError, fun _ => false⟩

/-- C5: a failed fetch (non-success status or transport fault) makes the
engine return `false` without creating a file at the destination — the
`try/catch` of the source is modelled by the engine being a total
function, so no exception reaches the walker — and failure is fully
isolated: with the children-field precondition and `mkdir` succeeding,
the walk completes for **every** network oracle, creating the same
directories and attempting the same downloads as a fully successful run
(both are the pure functions `dirsForest` and `callsForest` of the
tree), so one node's failed download never deprives a later sibling of
its directory or its download attempt. -/
theorem C5_download_failure_isolated :
    (∀ (env : Env) (st : St) (u p : String),
      List.lookup p st.files = none →
      (env.net u = .httpError ∨ env.net u = .fault) →
      (downloadFile env st u p).1 = false ∧
      (downloadFile env st u p).2.files = st.files) ∧
    (∀ (env : Env) (f : Forest) (cur base : String) (st : St),
      (∀ k, env.mkdirFails k = false) → ForestWF f →
      ∃ st', processMenuItems env f cur base st = .ok st' ∧
        st'.dirs = st.dirs ++ dirsForest f cur ∧
        st'.calls = st.calls ++ callsForest f cur base) := by
  constructor
  · intro env st u p hf hn
    rw [downloadFile_fail env st u p hf hn]
    exact ⟨rfl, rfl⟩
  · intro env f cur base st hmk hwf
    rcases processMenuItems_total env f cur base st hwf with ⟨st', hok⟩
    exact ⟨st', hok, processMenuItems_dirs env f cur base st st' hmk hok,
      processMenuItems_callsEq env f cur base st st' hmk hok⟩

/-- Witness for C5: with every fetch failing, the engine reports
`false` and writes nothing, yet the walk over the two document-bearing
siblings still creates both directories and attempts both downloads. -/
theorem C5_download_failure_isolated_witness :
    (downloadFile envHttpFail St.empty "u" "p").1 = false ∧
    callsOf (processMenuItems envHttpFail twoSiblings "r" "B/" St.empty) =
      [("B/a.pdf", "r/A.pdf"), ("B/b.pdf", "r/B.pdf")] ∧
    dirsOf (processMenuItems envHttpFail twoSiblings "r" "B/" St.empty) =
      ["r", "r"] := by
  have hwf : ForestWF twoSiblings := by
    refine ForestWF.cons
      (NodeWF.mk _ _ _ (fun hs bn hh hne hp hbn hc => Option.noConfusion hc)
        (fun cf hcf => ?_))
      (ForestWF.cons
        (NodeWF.mk _ _ _
          (fun hs bn hh hne hp hbn hc => Option.noConfusion hc)
          (fun cf hcf => ?_))
        ForestWF.nil) <;>
    · injection hcf with hcf
      rw [← hcf]
      exact ForestWF.nil
  have h := C5_download_failure_isolated
  refine ⟨(h.1 envHttpFail St.empty "u" "p" rfl (Or.inl rfl)).1, ?_, ?_⟩ <;>
    rcases h.2 envHttpFail twoSiblings "r" "B/" St.empty (fun k => rfl) hwf
      with ⟨st', hok, hdirs, hcalls⟩ <;>
    rw [hok]
  · rw [callsOf, hcalls]
    decide
  · rw [dirsOf, hdirs]
    decide

/-- Appending entries does not change a successful lookup. -/
theorem lookup_append_of_isSome {l l' : List (String × String)}
    {p : String} (h : (List.lookup p l).isSome) :
    List.lookup p (l ++ l') = List.lookup p l := by
  induction l with
  | nil => simp at h
  | cons a rest ih =>
    rcases a with ⟨k, v⟩
    by_cases hk : p == k
    · simp [List.lookup, hk]
    · rw [List.cons_append, List.lookup, List.lookup]
      simp only [hk]
      exact ih (by simpa [List.lookup, hk] using h)

/-- A failed lookup defers to the appended entries. -/
theorem lookup_append_of_none {l l' : List (String × String)}
    {p : String} (h : List.lookup p l = none) :
    List.lookup p (l ++ l') = List.lookup p l' := by
  induction l with
  | nil => simp
  | cons a rest ih =>
    rcases a with ⟨k, v⟩
    by_cases hk : p == k
    · simp [List.lookup, hk] at h
    · rw [List.cons_append, List.lookup]
      simp only [hk]
      exact ih (by simpa [List.lookup, hk] using h)

/-- The engine never loses a stored file. -/
theorem downloadFile_files_mono (env : Env) (st : St) (u p q : String)
    (hq : (List.lookup q st.files).isSome) :
    (List.lookup q (downloadFile env st u p).2.files).isSome := by
  rcases hfo : List.lookup p st.files with _ | v
  · rcases hnet : env.net u with b | _ | _
    · rw [downloadFile_fetch env st u p b hfo hnet]
      show (List.lookup q (st.files ++ [(p, b)])).isSome = true
      rw [lookup_append_of_isSome hq]
      exact hq
    · rw [downloadFile_fail env st u p hfo (Or.inl hnet)]
      exact hq
    · rw [downloadFile_fail env st u p hfo (Or.inr hnet)]
      exact hq
  · rw [downloadFile_exists env st u p (by rw [hfo]; rfl)]
    exact hq

/-- After a fetch that succeeds, the target is stored. -/
theorem downloadFile_target_present (env : Env) (st : St) (u p b : String)
    (hn : env.net u = .ok b) :
    (List.lookup p (downloadFile env st u p).2.files).isSome := by
  rcases hfo : List.lookup p st.files with _ | v
  · rw [downloadFile_fetch env st u p b hfo hn]
    show (List.lookup p (st.files ++ [(p, b)])).isSome = true
    rw [lookup_append_of_none hfo]
    simp [List.lookup]
  · rw [downloadFile_exists env st u p (by rw [hfo]; rfl)]
    show (List.lookup p st.files).isSome = true
    rw [hfo]
    rfl

mutual
/-- The walk never removes a stored file. -/
theorem processMenuItems_files_mono (env : Env) (f : Forest)
    (cur base : String) (st st' : St)
    (h : processMenuItems env f cur base st = .ok st') (q : String)
    (hq : (List.lookup q st.files).isSome) :
    (List.lookup q st'.files).isSome := by
  cases f with
  | nil =>
    rw [processMenuItems_nil] at h
    cases h
    exact hq
  | cons item rest =>
    rw [processMenuItems_cons] at h
    rcases hh : processMenuItem env item cur base st with e | st₁ <;>
      rw [hh] at h
    · cases h
    · exact processMenuItems_files_mono env rest cur base st₁ st' h q
        (processMenuItem_files_mono env item cur base st st₁ hh q hq)

/-- One loop iteration never removes a stored file. -/
theorem processMenuItem_files_mono (env : Env) (n : MenuNode)
    (cur base : String) (st st' : St)
    (h : processMenuItem env n cur base st = .ok st') (q : String)
    (hq : (List.lookup q st.files).isSome) :
    (List.lookup q st'.files).isSome := by
  cases n with
  | mk t hr ch =>
    by_cases hm : env.mkdirFails st.tick = true
    · rw [processMenuItem_mkdirFail env t hr ch cur base st hm] at h
      cases h
      exact hq
    · rw [Bool.not_eq_true] at hm
      have hstep : ∀ st₂ : St, (List.lookup q st₂.files).isSome →
          childrenStep env ch (itemPathOf cur (.mk t hr ch)) base st₂ =
            .ok st' →
          (List.lookup q st'.files).isSome := by
        intro st₂ hq₂ hcs
        cases ch with
        | none =>
          rw [childrenStep] at hcs
          cases hcs
          exact hq₂
        | some cf =>
          rw [childrenStep] at hcs
          by_cases hl : cf.length > 0
          · rw [if_pos hl] at hcs
            exact processMenuItems_files_mono env cf
              (itemPathOf cur (.mk t hr (some cf))) base st₂ st' hcs q hq₂
          · rw [if_neg hl] at hcs
            cases hcs
            exact hq₂
      cases hr with
      | none =>
        rw [processMenuItem_noHref env t ch cur base st hm] at h
        exact hstep (stAfterMkdir st cur) hq h
      | some hs =>
        by_cases he : hs = ""
        · subst he
          rw [processMenuItem_emptyHref env t ch cur base st hm] at h
          exact hstep (stAfterMkdir st cur) hq h
        · rcases hp : pdfNameMatch hs with _ | bn
          · rw [processMenuItem_parseFailStep env t hs ch cur base st hm
              (Or.inl hp)] at h
            exact hstep (stAfterMkdir st cur) hq h
          · by_cases hbn : bn = ""
            · subst hbn
              rw [processMenuItem_parseFailStep env t hs ch cur base st hm
                (Or.inr hp)] at h
              exact hstep (stAfterMkdir st cur) hq h
            · cases ch with
              | none =>
                rw [processMenuItem_childrenFault env t hs bn cur base st
                  hm he hp hbn] at h
                cases h
              | some cf =>
                rcases hdup : hrefDupScan cf hs with _ | _
                · rw [processMenuItem_download env t hs bn cf cur base st
                    hm he hp hbn hdup] at h
                  exact hstep _ (downloadFile_files_mono env
                    (stAfterMkdir st cur) _ _ q hq) h
                · rw [processMenuItem_dupSkip env t hs bn cf cur base st
                    hm he hp hbn hdup] at h
                  exact hstep (stAfterMkdir st cur) hq h
end

mutual
/-- Re-running a successful walk (every fetch succeeding, `mkdir` never
failing) from any state that already stores all files the first run
stored changes no files and issues no fetch. -/
theorem processMenuItems_idem (env : Env) (f : Forest) (cur base : String)
    (st st' : St) (hnet : ∀ u, ∃ b, env.net u = .ok b)
    (hmk : ∀ k, env.mkdirFails k = false)
    (h : processMenuItems env f cur base st = .ok st') :
    ∀ st₂ : St, (∀ q, (List.lookup q st'.files).isSome →
        (List.lookup q st₂.files).isSome) →
      ∃ st₃, processMenuItems env f cur base st₂ = .ok st₃ ∧
        st₃.files = st₂.files ∧ st₃.fetches = st₂.fetches := by
  cases f with
  | nil =>
    intro st₂ hsub
    rw [processMenuItems_nil] at h
    exact ⟨st₂, processMenuItems_nil env cur base st₂, rfl, rfl⟩
  | cons item rest =>
    intro st₂ hsub
    rw [processMenuItems_cons] at h
    rcases hh : processMenuItem env item cur base st with e | s₁ <;>
      rw [hh] at h
    · cases h
    · have hmono : ∀ q, (List.lookup q s₁.files).isSome →
          (List.lookup q st'.files).isSome :=
        fun q hq => processMenuItems_files_mono env rest cur base s₁ st' h
          q hq
      rcases processMenuItem_idem env item cur base st s₁ hnet hmk hh st₂
          (fun q hq => hsub q (hmono q hq)) with ⟨st₃, hok₃, hf₃, hfe₃⟩
      rcases processMenuItems_idem env rest cur base s₁ st' hnet hmk h st₃
          (fun q hq => by
            rw [hf₃]
            exact hsub q hq) with ⟨st₄, hok₄, hf₄, hfe₄⟩
      refine ⟨st₄, ?_, by rw [hf₄, hf₃], by rw [hfe₄, hfe₃]⟩
      rw [processMenuItems_cons, hok₃]
      exact hok₄

/-- Re-running one successful loop iteration from a state that already
stores all files the first run stored changes no files and issues no
fetch. -/
theorem processMenuItem_idem (env : Env) (n : MenuNode) (cur base : String)
    (st st' : St) (hnet : ∀ u, ∃ b, env.net u = .ok b)
    (hmk : ∀ k, env.mkdirFails k = false)
    (h : processMenuItem env n cur base st = .ok st') :
    ∀ st₂ : St, (∀ q, (List.lookup q st'.files).isSome →
        (List.lookup q st₂.files).isSome) →
      ∃ st₃, processMenuItem env n cur base st₂ = .ok st₃ ∧
        st₃.files = st₂.files ∧ st₃.fetches = st₂.fetches := by
  cases n with
  | mk t hr ch =>
    intro st₂ hsub
    have hcsmono : ∀ (stA : St) (q : String),
        childrenStep env ch (itemPathOf cur (.mk t hr ch)) base stA =
          .ok st' →
        (List.lookup q stA.files).isSome →
        (List.lookup q st'.files).isSome := by
      intro stA q hcs hq
      cases ch with
      | none =>
        rw [childrenStep] at hcs
        cases hcs
        exact hq
      | some cf =>
        rw [childrenStep] at hcs
        by_cases hl : cf.length > 0
        · rw [if_pos hl] at hcs
          exact processMenuItems_files_mono env cf
            (itemPathOf cur (.mk t hr (some cf))) base stA st' hcs q hq
        · rw [if_neg hl] at hcs
          cases hcs
          exact hq
    have hstep : ∀ stA stB : St,
        childrenStep env ch (itemPathOf cur (.mk t hr ch)) base stA =
          .ok st' →
        stB.files = st₂.files → stB.fetches = st₂.fetches →
        ∃ st₃, childrenStep env ch (itemPathOf cur (.mk t hr ch)) base stB
            = .ok st₃ ∧
          st₃.files = st₂.files ∧ st₃.fetches = st₂.fetches := by
      intro stA stB hcs hBf hBfe
      cases ch with
      | none => exact ⟨stB, by rw [childrenStep], hBf, hBfe⟩
      | some cf =>
        rw [childrenStep] at hcs
        by_cases hl : cf.length > 0
        · rw [if_pos hl] at hcs
          rcases processMenuItems_idem env cf
              (itemPathOf cur (.mk t hr (some cf))) base stA st' hnet hmk
              hcs stB (fun q hq => by
                rw [hBf]
                exact hsub q hq) with ⟨st₃, hok₃, hf₃, hfe₃⟩
          refine ⟨st₃, ?_, by rw [hf₃, hBf], by rw [hfe₃, hBfe]⟩
          rw [childrenStep, if_pos hl]
          exact hok₃
        · refine ⟨stB, ?_, hBf, hBfe⟩
          rw [childrenStep, if_neg hl]
    cases hr with
    | none =>
      rw [processMenuItem_noHref env t ch cur base st (hmk st.tick)] at h
      rcases hstep (stAfterMkdir st cur) (stAfterMkdir st₂ cur) h rfl rfl
        with ⟨st₃, hok₃, hf₃, hfe₃⟩
      refine ⟨st₃, ?_, hf₃, hfe₃⟩
      rw [processMenuItem_noHref env t ch cur base st₂ (hmk st₂.tick)]
      exact hok₃
    | some hs =>
      by_cases he : hs = ""
      · subst he
        rw [processMenuItem_emptyHref env t ch cur base st (hmk st.tick)]
          at h
        rcases hstep (stAfterMkdir st cur) (stAfterMkdir st₂ cur) h rfl rfl
          with ⟨st₃, hok₃, hf₃, hfe₃⟩
        refine ⟨st₃, ?_, hf₃, hfe₃⟩
        rw [processMenuItem_emptyHref env t ch cur base st₂ (hmk st₂.tick)]
        exact hok₃
      · rcases hp : pdfNameMatch hs with _ | bn
        · rw [processMenuItem_parseFailStep env t hs ch cur base st
            (hmk st.tick) (Or.inl hp)] at h
          rcases hstep (stAfterMkdir st cur) (stAfterMkdir st₂ cur) h rfl
            rfl with ⟨st₃, hok₃, hf₃, hfe₃⟩
          refine ⟨st₃, ?_, hf₃, hfe₃⟩
          rw [processMenuItem_parseFailStep env t hs ch cur base st₂
            (hmk st₂.tick) (Or.inl hp)]
          exact hok₃
        · by_cases hbn : bn = ""
          · subst hbn
            rw [processMenuItem_parseFailStep env t hs ch cur base st
              (hmk st.tick) (Or.inr hp)] at h
            rcases hstep (stAfterMkdir st cur) (stAfterMkdir st₂ cur) h rfl
              rfl with ⟨st₃, hok₃, hf₃, hfe₃⟩
            refine ⟨st₃, ?_, hf₃, hfe₃⟩
            rw [processMenuItem_parseFailStep env t hs ch cur base st₂
              (hmk st₂.tick) (Or.inr hp)]
            exact hok₃
          · cases ch with
            | none =>
              rw [processMenuItem_childrenFault env t hs bn cur base st
                (hmk st.tick) he hp hbn] at h
              cases h
            | some cf =>
              rcases hdup : hrefDupScan cf hs with _ | _
              · rw [processMenuItem_download env t hs bn cf cur base st
                  (hmk st.tick) he hp hbn hdup] at h
                rcases hnet (urlResolve base (encodeURIComponent bn ++
                  ".pdf")) with ⟨b, hb⟩
                have htarget : (List.lookup
                    (if cf.length > 0 then
                      itemPathOf cur (.mk t (some hs) (some cf)) ++ "/" ++
                        sanTitleOf (.mk t (some hs) (some cf)) ++ ".pdf"
                     else itemPathOf cur (.mk t (some hs) (some cf)) ++
                        ".pdf") st₂.files).isSome := by
                  refine hsub _ (hcsmono _ _ h ?_)
                  exact downloadFile_target_present env
                    (stAfterMkdir st cur) _ _ b hb
                have hdl₂ := downloadFile_exists env (stAfterMkdir st₂ cur)
                  (urlResolve base (encodeURIComponent bn ++ ".pdf"))
                  (if cf.length > 0 then
                    itemPathOf cur (.mk t (some hs) (some cf)) ++ "/" ++
                      sanTitleOf (.mk t (some hs) (some cf)) ++ ".pdf"
                   else itemPathOf cur (.mk t (some hs) (some cf)) ++
                      ".pdf") htarget
                rcases hstep ((downloadFile env (stAfterMkdir st cur)
                    (urlResolve base (encodeURIComponent bn ++ ".pdf"))
                    (if cf.length > 0 then
                      itemPathOf cur (.mk t (some hs) (some cf)) ++ "/" ++
                        sanTitleOf (.mk t (some hs) (some cf)) ++ ".pdf"
                     else itemPathOf cur (.mk t (some hs) (some cf)) ++
                        ".pdf")).2)
                    ((downloadFile env (stAfterMkdir st₂ cur)
                    (urlResolve base (encodeURIComponent bn ++ ".pdf"))
                    (if cf.length > 0 then
                      itemPathOf cur (.mk t (some hs) (some cf)) ++ "/" ++
                        sanTitleOf (.mk t (some hs) (some cf)) ++ ".pdf"
                     else itemPathOf cur (.mk t (some hs) (some cf)) ++
                        ".pdf")).2) h (by rw [hdl₂]; rfl) (by rw [hdl₂]; rfl)
                  with ⟨st₃, hok₃, hf₃, hfe₃⟩
                refine ⟨st₃, ?_, hf₃, hfe₃⟩
                rw [processMenuItem_download env t hs bn cf cur base st₂
                  (hmk st₂.tick) he hp hbn hdup]
                exact hok₃
              · rw [processMenuItem_dupSkip env t hs bn cf cur base st
                  (hmk st.tick) he hp hbn hdup] at h
                rcases hstep (stAfterMkdir st cur) (stAfterMkdir st₂ cur) h
                  rfl rfl with ⟨st₃, hok₃, hf₃, hfe₃⟩
                refine ⟨st₃, ?_, hf₃, hfe₃⟩
                rw [processMenuItem_dupSkip env t hs bn cf cur base st₂
                  (hmk st₂.tick) he hp hbn hdup]
                exact hok₃
end

/-- Stored files of a finished run. -/
def filesOf : Except Fault St → List (String × String)
  | .ok st => st.files
  | .error _ => []

/-- Issued fetches of a finished run. -/
def fetchesOf : Except Fault St → List String
  | .ok st => st.fetches
  | .error _ => []

/-- C9: the mirror is idempotent — with unchanged, always-successful
remote content and `mkdir` never failing, re-running a completed walk
from its own final state completes again, leaves the stored files
exactly as after the first run, and issues zero network fetches (every
destination computed on the second run already exists, so every engine
call short-circuits). -/
theorem C9_second_run_changes_nothing (env : Env) (f : Forest)
    (cur base : String) (st st₁ : St)
    (hnet : ∀ u, ∃ b, env.net u = .ok b)
    (hmk : ∀ k, env.mkdirFails k = false)
    (h₁ : processMenuItems env f cur base st = .ok st₁) :
    ∃ st₂, processMenuItems env f cur base st₁ = .ok st₂ ∧
      st₂.files = st₁.files ∧ st₂.fetches = st₁.fetches :=
  processMenuItems_idem env f cur base st st₁ hnet hmk h₁ st₁
    (fun _ hq => hq)

/-- Witness for C9: rerunning the completed walk of the two
document-bearing siblings changes no file and issues no new fetch. -/
theorem C9_second_run_changes_nothing_witness :
    filesOf (processMenuItems envOk docPair "r" "B/"
        ⟨3, ["r", "r/P", "r"],
         [("r/P/P.pdf", "pdfbody"), ("r/L.pdf", "pdfbody")],
         ["B/p.pdf", "B/l.pdf"],
         [("B/p.pdf", "r/P/P.pdf"), ("B/l.pdf", "r/L.pdf")]⟩) =
      [("r/P/P.pdf", "pdfbody"), ("r/L.pdf", "pdfbody")] ∧
    fetchesOf (processMenuItems envOk docPair "r" "B/"
        ⟨3, ["r", "r/P", "r"],
         [("r/P/P.pdf", "pdfbody"), ("r/L.pdf", "pdfbody")],
         ["B/p.pdf", "B/l.pdf"],
         [("B/p.pdf", "r/P/P.pdf"), ("B/l.pdf", "r/L.pdf")]⟩) =
      ["B/p.pdf", "B/l.pdf"] := by
  rcases C9_second_run_changes_nothing envOk docPair "r" "B/" St.empty
      ⟨3, ["r", "r/P", "r"],
       [("r/P/P.pdf", "pdfbody"), ("r/L.pdf", "pdfbody")],
       ["B/p.pdf", "B/l.pdf"],
       [("B/p.pdf", "r/P/P.pdf"), ("B/l.pdf", "r/L.pdf")]⟩
      (fun u => ⟨"pdfbody", rfl⟩) (fun k => rfl) (by decide)
    with ⟨st₂, hok, hf, hfe⟩
  rw [hok]
  exact ⟨hf, hfe⟩
